import Mathlib

/-!
Shallow embedding of the uEye-XS image-processing core
(`src/image_processor.py`, `src/vision_processor.py`, and the test
orchestration loop of `src/app.py`).

Images are numpy uint8 grayscale arrays, modelled as lists of rows of
natural-number intensities.  Every real numpy array is rectangular
(predicate `Rect`) and keeps its values in `[0, 255]`.  Fractional
quantities (change ratios, correlation scores, interpolation weights)
are modelled exactly over `ℚ`; Python's float literal `0.02` stands for
the rational `1/50`.  Library calls (`cv2.absdiff`, `cv2.threshold`,
`cv2.countNonZero`, `cv2.matchTemplate`, `cv2.minMaxLoc`, CLAHE,
`cv2.cvtColor`) are modelled from their documented OpenCV semantics,
each noted at its definition.

Rational values are always built with `mkRat` (exact division) rather
than the `Field ℚ` operations, so that every definition evaluates by
kernel reduction on concrete inputs; the proofs relate `mkRat` back to
`/` where convenient.
-/

set_option maxRecDepth 100000

namespace UEye

/-- An intensity image: rows of pixel values (a numpy uint8 grayscale
array; values of real arrays lie in `[0, 255]`). -/
abbrev Image : Type := List (List ℕ)

/-- Number of rows (`img.shape[0]`). -/
def height (img : Image) : ℕ := img.length

/-- Number of columns (`img.shape[1]`), read off the first row. -/
def width (img : Image) : ℕ := (img.headD []).length

/-- numpy `.shape` of a 2-D array: `(rows, cols)`. -/
def shape (img : Image) : ℕ × ℕ := (height img, width img)

/-- numpy `.size`: total number of elements. -/
def size (img : Image) : ℕ := (img.map List.length).sum

/-- Rectangularity: every row has the common width.  True of every numpy
array; a hypothesis wherever a theorem needs it. -/
def Rect (img : Image) : Prop := ∀ row ∈ img, row.length = width img

instance (img : Image) : Decidable (Rect img) := by
  unfold Rect; infer_instance

/-- Pixel read `img[i][j]` (0 outside the array; in-range on rect inputs). -/
def pix (img : Image) (i j : ℕ) : ℕ := (img.getD i []).getD j 0

/-- numpy basic slicing `img[y : y+h, x : x+w]` for nonnegative bounds:
out-of-range parts are silently clamped to the array, never an error. -/
def slice2d (img : Image) (y x h w : ℕ) : Image :=
  ((img.drop y).take h).map (fun row => (row.drop x).take w)

/-- `cv2.absdiff` on equal-shape uint8 arrays: elementwise `|a - b|`
(saturation never fires for values in `[0,255]`). -/
def absdiff (a b : Image) : Image :=
  List.zipWith (fun ra rb => List.zipWith (fun x y => max x y - min x y) ra rb) a b

/-- `cv2.threshold(img, t, 255, cv2.THRESH_BINARY)`: 255 where the value is
strictly greater than `t`, else 0. -/
def thresholdBin (img : Image) (t : ℕ) : Image :=
  img.map (fun row => row.map (fun d => if t < d then 255 else 0))

/-- `cv2.countNonZero`. -/
def countNonZero (img : Image) : ℕ :=
  (img.map (fun row => row.countP (fun v => v != 0))).sum

namespace ImageProcessor

/-- Body of `ImageProcessor.pixel_diff_change` from the `diff = cv2.absdiff`
line onward (the part reached once shapes agree, factored out so the
dimension-mismatch path can be related to it). -/
def diffCompare (ref live : Image) (threshold : ℕ) (change_ratio_threshold : ℚ) :
    Bool × ℚ :=
  let diff := absdiff ref live
  let binary := thresholdBin diff threshold
  let diff_pixels := countNonZero binary
  let total_pixels := size binary
  if total_pixels = 0 then (false, 0)
  else
    let ratio : ℚ := mkRat diff_pixels total_pixels
    (decide (change_ratio_threshold < ratio), ratio)

/-- `ImageProcessor.pixel_diff_change` (src/image_processor.py:62-98):
crop both images from the top-left to the common minimum height/width when
shapes differ, return `(False, 0.0)` when the crop is empty, otherwise
threshold the absolute difference and compare the changed-pixel ratio. -/
def pixel_diff_change (ref live : Image) (threshold : ℕ := 25)
    (change_ratio_threshold : ℚ := mkRat 1 50) : Bool × ℚ :=
  if shape ref ≠ shape live then
    let min_h := min (height ref) (height live)
    let min_w := min (width ref) (width live)
    let ref' := slice2d ref 0 0 min_h min_w
    let live' := slice2d live 0 0 min_h min_w
    if size ref' = 0 ∨ size live' = 0 then (false, 0)
    else diffCompare ref' live' threshold change_ratio_threshold
  else diffCompare ref live threshold change_ratio_threshold

end ImageProcessor

namespace VisionProcessor

/-- `VisionProcessor.pixel_diff_change` (src/vision_processor.py:26-36): the
unused duplicate detector; no shape handling, ratio threshold hardcoded to
`0.02`. -/
def pixel_diff_change (ref live : Image) (threshold : ℕ := 25) : Bool × ℚ :=
  let diff := absdiff ref live
  let binary := thresholdBin diff threshold
  let diff_pixels := countNonZero binary
  let total_pixels := size binary
  if total_pixels = 0 then (false, 0)
  else
    let ratio : ℚ := mkRat diff_pixels total_pixels
    (decide (mkRat 1 50 < ratio), ratio)

end VisionProcessor

/-- The pixel values of the `h × w` patch of `img` with top-left corner
`(y, x)`, in row-major order, as integers. -/
def patchVals (img : Image) (y x h w : ℕ) : List ℤ :=
  (List.range (h * w)).map (fun k => (pix img (y + k / w) (x + k % w) : ℤ))

/-- One entry of the `cv2.TM_CCOEFF_NORMED` result: the normalized
cross-correlation coefficient of the template against the patch of `image`
at offset `(dy, dx)`, composed with the strictly monotone map
`x ↦ sign x * x ^ 2`.  The real coefficient is `num / √(denT * denP)` with
the mean-centered sums below (centering is carried out exactly by scaling
everything by `n = h * w`, which cancels); applying `sign · ^2` removes the
square root while preserving the ordering and ties of every comparison
`cv2.minMaxLoc` performs, hence the argmax location.  A zero denominator
(flat template or flat patch, where the real coefficient is numerically
void and OpenCV clamps it) scores 0, which is also what `mkRat _ 0`
returns. -/
def nccScore (image template : Image) (dy dx : ℕ) : ℚ :=
  let h := height template
  let w := width template
  let n : ℤ := (h * w : ℕ)
  let tv := patchVals template 0 0 h w
  let pv := patchVals image dy dx h w
  let ts := tv.sum
  let ps := pv.sum
  let num := (List.zipWith (fun a b => (n * a - ts) * (n * b - ps)) tv pv).sum
  let denT := (tv.map (fun a => (n * a - ts) * (n * a - ts))).sum
  let denP := (pv.map (fun b => (n * b - ps) * (n * b - ps))).sum
  mkRat (if num < 0 then -(num * num) else num * num) (denT * denP).toNat

/-- `cv2.matchTemplate(image, template, cv2.TM_CCOEFF_NORMED)`.  Modelled
from the documented OpenCV contract: the template must be non-empty and
"not greater than the source image" in either dimension, otherwise the
call raises (`cv2.error`, an assertion failure); on valid inputs the
result is the `(H−h+1) × (W−w+1)` array of correlation scores. -/
def matchTemplate (image template : Image) : Except String (List (List ℚ)) :=
  if height template = 0 ∨ width template = 0 ∨
      height image < height template ∨ width image < width template then
    .error "cv2.error: template must be non-empty and not greater than the image"
  else
    .ok ((List.range (height image - height template + 1)).map (fun dy =>
      (List.range (width image - width template + 1)).map (fun dx =>
        nccScore image template dy dx)))

/-- Row-major scan order of a `rows × cols` array. -/
def scanOrder (rows cols : ℕ) : List (ℕ × ℕ) :=
  (List.range (rows * cols)).map (fun k => (k / cols, k % cols))

/-- Fold keeping the first strict maximum: a candidate replaces the current
best only when its value is strictly greater, so the earliest occurrence of
the maximum wins — exactly `cv2.minMaxLoc`'s scan. -/
def pickMax (f : ℕ × ℕ → ℚ) : List (ℕ × ℕ) → ℕ × ℕ → ℕ × ℕ
  | [], best => best
  | p :: rest, best => pickMax f rest (if f best < f p then p else best)

/-- Entry `(y, x)` of a rows-of-rows rational array (0 outside). -/
def qpix (res : List (List ℚ)) (y x : ℕ) : ℚ := (res.getD y []).getD x 0

/-- The `max_loc` output of `cv2.minMaxLoc(res)`: position of the first
maximum in row-major scan order, returned as a `(x, y)` point (OpenCV
`Point` convention, which `align_images` destructures as `x, y`). -/
def minMaxLocMax (res : List (List ℚ)) : ℕ × ℕ :=
  ((pickMax (fun p => qpix res p.1 p.2) (scanOrder res.length (res.headD []).length) (0, 0)).2,
   (pickMax (fun p => qpix res p.1 p.2) (scanOrder res.length (res.headD []).length) (0, 0)).1)

instance {ε α : Type} [DecidableEq ε] [DecidableEq α] : DecidableEq (Except ε α) := fun a b =>
  match a, b with
  | .error e, .error f => decidable_of_iff (e = f) (by simp)
  | .ok x, .ok y => decidable_of_iff (x = y) (by simp)
  | .error _, .ok _ => isFalse (by simp)
  | .ok _, .error _ => isFalse (by simp)

namespace ImageProcessor

/-- `ImageProcessor.align_images` (src/image_processor.py:27-60).  The two
grayscale-conversion guards are identities here because the embedding's
`Image` type is single-channel (the app always passes CLAHE output).
Template matching finds the best offset, the matched region is cropped
out of `image`, and a top-left crop is substituted if the shapes disagree;
a failing `cv2.matchTemplate` call propagates as `.error`. -/
def align_images (template image : Image) : Except String Image :=
  match matchTemplate image template with
  | .error e => .error e
  | .ok res =>
    let xy := minMaxLocMax res
    let h := height template
    let w := width template
    let aligned := slice2d image xy.2 xy.1 h w
    if shape aligned ≠ shape template then .ok (slice2d image 0 0 h w)
    else .ok aligned

end ImageProcessor

/-- A frame as delivered by the camera or `cv2.imread`: 3-channel BGR
color, or a single intensity channel. -/
inductive Frame : Type
  | color (data : List (List (ℕ × ℕ × ℕ)))
  | gray (data : Image)

/-- Rows of a frame (`frame.shape[0]`). -/
def frameHeight : Frame → ℕ
  | .color d => d.length
  | .gray g => height g

/-- Columns of a frame (`frame.shape[1]`). -/
def frameWidth : Frame → ℕ
  | .color d => (d.headD []).length
  | .gray g => width g

/-- `cv2.cvtColor(img, cv2.COLOR_BGR2GRAY)` on `(b, g, r)` pixels, using
OpenCV's fixed-point luma weights `(R*4899 + G*9617 + B*1868 + 8192) >> 14`. -/
def cvtColorBGR2Gray (d : List (List (ℕ × ℕ × ℕ))) : Image :=
  d.map (fun row => row.map (fun p =>
    (p.2.2 * 4899 + p.2.1 * 9617 + p.1 * 1868 + 8192) / 16384))

/-- Rounded value of the exact ratio `N / D`, rounding half up (models
OpenCV's `cvRound` on nonnegative values; ties differ only at exact `.5`). -/
def roundRatio (N D : ℕ) : ℕ := (2 * N + D) / (2 * D)

/-- `cv::borderInterpolate(p, len, BORDER_REFLECT_101)` for `p ≥ 0`:
reflection without repeating the edge pixel, period `2*len - 2`; a
single-pixel extent always maps to 0. -/
def reflect101 (p len : ℕ) : ℕ :=
  if len ≤ 1 then 0
  else
    let q := p % (2 * len - 2)
    if q < len then q else 2 * len - 2 - q

/-- Pixel values of CLAHE tile `(ty, tx)`: the source is padded on the
right/bottom by `BORDER_REFLECT_101` to make each side a multiple of the
8×8 tile grid, and the tile is cut from the padded array. -/
def tileVals (src : Image) (h w tileH tileW ty tx : ℕ) : List ℕ :=
  (List.range (tileH * tileW)).map (fun k =>
    pix src (reflect101 (ty * tileH + k / tileW) h) (reflect101 (tx * tileW + k % tileW) w))

/-- Redistribution of the residual clipped mass: OpenCV adds one count to
bins `0, step, 2*step, …` until the residual is used up,
`step = max(histSize / residual, 1)`. -/
def redistAdd (residual b : ℕ) : ℕ :=
  if residual = 0 then 0
  else if b % max (256 / residual) 1 = 0 ∧ b / max (256 / residual) 1 < residual then 1
  else 0

/-- One entry of a CLAHE tile's lookup table: histogram the tile, clip each
bin at `clip`, spread the clipped excess (`excess / 256` to every bin plus
the `redistAdd` residual), take the cumulative sum up to intensity `v`, and
scale by `255 / tileArea` with rounding and uint8 saturation. -/
def tileLut (src : Image) (h w tileH tileW ty tx clip tileArea v : ℕ) : ℕ :=
  let vals := tileVals src h w tileH tileW ty tx
  let excess := ((List.range 256).map (fun b => vals.countP (fun u => u == b) - clip)).sum
  let cum := ((List.range (v + 1)).map (fun b =>
    min (vals.countP (fun u => u == b)) clip + excess / 256 + redistAdd (excess % 256) b)).sum
  min (roundRatio (255 * cum) tileArea) 255

/-- One output pixel of CLAHE: look the input value up in the LUTs of the
four neighbouring tiles and blend bilinearly.  The tile-coordinate offsets
`x/tileW - 1/2` and the interpolation weights are exact rationals with
denominators `2*tileW` and `2*tileH`; the arithmetic below carries those
denominators explicitly (`nx / dx` is the x tile coordinate, `xaN / dx` the
fractional weight), so the final `roundRatio` computes the exactly
interpolated value.  Tile indices are clamped to `[0, 7]` as in OpenCV. -/
def clahePixel (src : Image) (h w i j : ℕ) : ℕ :=
  let tileH := (h + 7) / 8
  let tileW := (w + 7) / 8
  let tileArea := tileH * tileW
  let clip := max 1 (2 * tileArea / 256)
  let v := pix src i j
  let dx := 2 * tileW
  let dy := 2 * tileH
  let nx : ℤ := 2 * (j : ℤ) - (tileW : ℤ)
  let ny : ℤ := 2 * (i : ℤ) - (tileH : ℤ)
  let xaN : ℕ := (nx.fmod dx).toNat
  let yaN : ℕ := (ny.fmod dy).toNat
  let tx1c : ℕ := (nx.fdiv dx).toNat
  let tx2c : ℕ := (min (nx.fdiv dx + 1) 7).toNat
  let ty1c : ℕ := (ny.fdiv dy).toNat
  let ty2c : ℕ := (min (ny.fdiv dy + 1) 7).toNat
  let l11 := tileLut src h w tileH tileW ty1c tx1c clip tileArea v
  let l12 := tileLut src h w tileH tileW ty1c tx2c clip tileArea v
  let l21 := tileLut src h w tileH tileW ty2c tx1c clip tileArea v
  let l22 := tileLut src h w tileH tileW ty2c tx2c clip tileArea v
  let N := (dy - yaN) * ((dx - xaN) * l11 + xaN * l12) + yaN * ((dx - xaN) * l21 + xaN * l22)
  min (roundRatio N (dx * dy)) 255

/-- `cv2.createCLAHE(clipLimit=2.0, tileGridSize=(8,8)).apply(src)`:
adaptive histogram equalization with clipping, modelled from OpenCV's
`clahe.cpp` (8×8 tile grid over the reflect-padded source, per-tile clipped
LUTs, bilinear blending between tiles). -/
def claheApply (src : Image) : Image :=
  (List.range (height src)).map (fun i =>
    (List.range (width src)).map (fun j => clahePixel src (height src) (width src) i j))

namespace ImageProcessor

/-- `ImageProcessor.preprocess_with_clahe` (src/image_processor.py:11-25):
convert 3-channel input to grayscale (single-channel input passes through),
then apply CLAHE. -/
def preprocess_with_clahe (img : Frame) : Image :=
  match img with
  | .color d => claheApply (cvtColorBGR2Gray d)
  | .gray g => claheApply g

end ImageProcessor

namespace VisionTestApp

/-- `VisionTestApp.get_roi_box` (src/app.py:152-159): `None` unless both
corners were recorded, else `(min x, min y, |dx|, |dy|)`.  Widget
coordinates are modelled as naturals. -/
def get_roi_box : Option (ℕ × ℕ) → Option (ℕ × ℕ) → Option (ℕ × ℕ × ℕ × ℕ)
  | some (x1, y1), some (x2, y2) =>
      some (min x1 x2, min y1 y2, max x1 x2 - min x1 x2, max y1 y2 - min y1 y2)
  | _, _ => none

/-- One iteration body of the testing loop of
`VisionTestApp.process_and_display_frame` (src/app.py:248-263) for a
successfully loaded reference image: preprocess it, align the live
image to it, run the detector with the default thresholds
(25, 0.02 = 1/50).  A raising `cv2.matchTemplate` propagates. -/
def refStep (live_proc : Image) (refImg : Frame) : Except String (Bool × ℚ) :=
  match ImageProcessor.align_images (ImageProcessor.preprocess_with_clahe refImg) live_proc with
  | .error e => .error e
  | .ok aligned_live =>
    .ok (ImageProcessor.pixel_diff_change
      (ImageProcessor.preprocess_with_clahe refImg) aligned_live 25 (mkRat 1 50))

/-- The reference-comparison loop of
`VisionTestApp.process_and_display_frame` (src/app.py:244-263): walk the
reference slots in stored order; a slot whose file failed to load
(`cv2.imread` returned `None`) is skipped; otherwise run `refStep`, fold
the running maximum of the diff ratios, and stop at the first reference
whose change flag is set.  Returns the `(change_detected, max_diff_ratio)`
pair the app reports; `max_diff_ratio` starts at 0. -/
def process_refs (live_proc : Image) : List (Option Frame) → ℚ → Except String (Bool × ℚ)
  | [], max_diff_ratio => .ok (false, max_diff_ratio)
  | none :: rest, max_diff_ratio => process_refs live_proc rest max_diff_ratio
  | some refImg :: rest, max_diff_ratio =>
    match refStep live_proc refImg with
    | .error e => .error e
    | .ok (change, diff_ratio) =>
      let m := max max_diff_ratio diff_ratio
      if change then .ok (true, m) else process_refs live_proc rest m

end VisionTestApp

/-- The number of pixel positions of the common grid at which the two
images differ by strictly more than `t` — the count the spec describes as
"number of pixels whose absolute intensity difference is strictly greater
than pixel_threshold". -/
def diffCount (ref live : Image) (t : ℕ) : ℕ :=
  (List.zipWith (fun ra rb =>
    (List.zipWith (fun x y => max x y - min x y) ra rb).countP (fun d => decide (t < d)))
    ref live).sum

example : claheApply [[0]] = [[255]] := by decide

example : ImageProcessor.preprocess_with_clahe (.color [[(10, 20, 30)]]) = [[255]] := by decide

example : VisionTestApp.refStep [[255]] (.gray [[0]]) = .ok (false, 0) := by decide

example : VisionTestApp.refStep [[0]] (.gray [[5]]) = .ok (true, 1) := by decide

example : VisionTestApp.process_refs [[255]] [some (.gray [[0]]), none] 0 = .ok (false, 0) := by decide

example : ImageProcessor.align_images [[3]] [[3]] = .ok [[3]] := by decide

example : ImageProcessor.align_images [[7], [7]] [[7, 7]] =
    .error "cv2.error: template must be non-empty and not greater than the image" := by decide

example : ImageProcessor.align_images [[9]] [[1, 2], [3, 9]] = .ok [[1]] ∨
    ImageProcessor.align_images [[9]] [[1, 2], [3, 9]] = .ok [[9]] := by decide

example : ImageProcessor.pixel_diff_change [[0, 0]] [[0, 100]] 25 (mkRat 1 50) = (true, mkRat 1 2) := by decide

example : ImageProcessor.pixel_diff_change [[0]] [[0], [0]] 25 (mkRat 1 50) = (false, 0) := by decide

example : ImageProcessor.pixel_diff_change [] [[0]] 25 (mkRat 1 50) = (false, 0) := by decide

example : VisionProcessor.pixel_diff_change [[0, 0]] [[0, 100]] 25 = (true, mkRat 1 2) := by decide

/-! ### Helper lemmas about sizes and counts -/

theorem size_eq_of_rows (img : Image) (w : ℕ) (hw : ∀ r ∈ img, r.length = w) :
    size img = img.length * w := by
  induction img with
  | nil => simp [size]
  | cons r rest ih =>
    have hr : r.length = w := hw r (by simp)
    have h2 := ih (fun s hs => hw s (List.mem_cons_of_mem _ hs))
    simp only [size, List.map_cons, List.sum_cons, List.length_cons] at h2 ⊢
    rw [hr, h2]
    ring

theorem countNonZero_le_size (img : Image) : countNonZero img ≤ size img := by
  unfold countNonZero size
  exact List.sum_le_sum (fun r _ => List.countP_le_length _)

theorem exists_of_mem_zipWith {α β γ : Type} {f : α → β → γ} :
    ∀ {a : List α} {b : List β} {r : γ}, r ∈ List.zipWith f a b →
      ∃ x ∈ a, ∃ y ∈ b, r = f x y := by
  intro a
  induction a with
  | nil => intro b r h; simp at h
  | cons x xs ih =>
    intro b r h
    cases b with
    | nil => simp at h
    | cons y ys =>
      rcases List.mem_cons.mp h with h1 | h2
      · exact ⟨x, by simp, y, by simp, h1⟩
      · obtain ⟨x', hx', y', hy', hr⟩ := ih h2
        exact ⟨x', by simp [hx'], y', by simp [hy'], hr⟩

theorem rows_absdiff {a b : Image} {w : ℕ}
    (ha : ∀ r ∈ a, r.length = w) (hb : ∀ r ∈ b, r.length = w) :
    ∀ r ∈ absdiff a b, r.length = w := by
  intro r hr
  obtain ⟨x, hx, y, hy, hrxy⟩ := exists_of_mem_zipWith hr
  subst hrxy
  rw [List.length_zipWith, ha x hx, hb y hy, min_self]

theorem rows_thresholdBin {img : Image} {w t : ℕ} (h : ∀ r ∈ img, r.length = w) :
    ∀ r ∈ thresholdBin img t, r.length = w := by
  intro r hr
  obtain ⟨s, hs, rfl⟩ := List.mem_map.mp hr
  simpa using h s hs

theorem length_absdiff (a b : Image) : (absdiff a b).length = min a.length b.length :=
  List.length_zipWith ..

theorem length_thresholdBin (img : Image) (t : ℕ) :
    (thresholdBin img t).length = img.length := List.length_map ..

theorem countNonZero_thresholdBin (img : Image) (t : ℕ) :
    countNonZero (thresholdBin img t) =
      (img.map (fun row => row.countP (fun d => decide (t < d)))).sum := by
  unfold countNonZero thresholdBin
  rw [List.map_map]
  congr 1
  apply List.map_congr_left
  intro row _
  simp only [Function.comp]
  rw [List.countP_map]
  apply List.countP_congr
  intro d _
  by_cases h : t < d <;> simp [h]

theorem countNonZero_thresholdBin_absdiff (ref live : Image) (t : ℕ) :
    countNonZero (thresholdBin (absdiff ref live) t) = diffCount ref live t := by
  rw [countNonZero_thresholdBin]
  unfold absdiff diffCount
  rw [List.map_zipWith]

theorem shape_eq_iff {a b : Image} :
    shape a = shape b ↔ height a = height b ∧ width a = width b := by
  simp [shape, Prod.ext_iff]

theorem size_binary_eq (ref live : Image) (t : ℕ)
    (href : Rect ref) (hlive : Rect live)
    (hH : height live = height ref) (hW : width live = width ref) :
    size (thresholdBin (absdiff ref live) t) = height ref * width ref := by
  have hrows : ∀ r ∈ thresholdBin (absdiff ref live) t, r.length = width ref :=
    rows_thresholdBin (rows_absdiff href (fun r hr => (hlive r hr).trans hW))
  rw [size_eq_of_rows _ _ hrows, length_thresholdBin, length_absdiff]
  unfold height at hH ⊢
  rw [hH, min_self]

/-- C4: on equal-dimension, non-empty images, the detector's severity is
exactly (number of pixels whose absolute difference strictly exceeds
`pixel_threshold`) / (total pixel count), the change flag is
`severity > ratio_threshold`, and the severity lies in `[0, 1]`. -/
theorem C4_detector_formula (ref live : Image) (t : ℕ) (rt : ℚ)
    (href : Rect ref) (hlive : Rect live) (hshape : shape ref = shape live)
    (hh : 0 < height ref) (hw : 0 < width ref) :
    ImageProcessor.pixel_diff_change ref live t rt =
      (decide (rt < mkRat (diffCount ref live t) (height ref * width ref)),
        mkRat (diffCount ref live t) (height ref * width ref)) ∧
    0 ≤ mkRat (diffCount ref live t) (height ref * width ref) ∧
    mkRat (diffCount ref live t) (height ref * width ref) ≤ 1 := by
  obtain ⟨hH, hW⟩ := shape_eq_iff.mp hshape
  have hsize : size (thresholdBin (absdiff ref live) t) = height ref * width ref :=
    size_binary_eq ref live t href hlive hH.symm hW.symm
  have hcnt : countNonZero (thresholdBin (absdiff ref live) t) = diffCount ref live t :=
    countNonZero_thresholdBin_absdiff ref live t
  have hpos : height ref * width ref ≠ 0 := Nat.mul_ne_zero hh.ne' hw.ne'
  have hle : diffCount ref live t ≤ height ref * width ref := by
    rw [← hcnt, ← hsize]; exact countNonZero_le_size _
  refine ⟨?_, ?_, ?_⟩
  · unfold ImageProcessor.pixel_diff_change
    rw [if_neg (not_not_intro hshape)]
    unfold ImageProcessor.diffCompare
    simp only [hsize, hcnt, if_neg hpos]
  · rw [Rat.mkRat_eq_divInt, Rat.divInt_eq_div]
    positivity
  · rw [Rat.mkRat_eq_divInt, Rat.divInt_eq_div]
    rw [div_le_one (by exact_mod_cast Nat.pos_of_ne_zero hpos)]
    exact_mod_cast hle

/-- Witness for C4 at a concrete 1×2 pair: one of the two pixels differs
by 100 > 25, so the severity is 1/2. -/
theorem C4_witness :
    ImageProcessor.pixel_diff_change [[0, 0]] [[0, 100]] 25 (mkRat 1 50) =
      (decide (mkRat 1 50 < mkRat (diffCount [[0, 0]] [[0, 100]] 25)
        (height [[0, 0]] * width [[0, 0]])),
       mkRat (diffCount [[0, 0]] [[0, 100]] 25) (height [[0, 0]] * width [[0, 0]])) ∧
    0 ≤ mkRat (diffCount [[0, 0]] [[0, 100]] 25) (height [[0, 0]] * width [[0, 0]]) ∧
    mkRat (diffCount [[0, 0]] [[0, 100]] 25) (height [[0, 0]] * width [[0, 0]]) ≤ 1 :=
  C4_detector_formula [[0, 0]] [[0, 100]] 25 (mkRat 1 50)
    (by decide) (by decide) (by decide) (by decide) (by decide)

theorem size_thresholdBin (img : Image) (t : ℕ) :
    size (thresholdBin img t) = size img := by
  unfold size thresholdBin
  rw [List.map_map]
  congr 1
  apply List.map_congr_left
  intro r _
  simp

theorem countNonZero_thresholdBin_anti (img : Image) {t1 t2 : ℕ} (h : t1 ≤ t2) :
    countNonZero (thresholdBin img t2) ≤ countNonZero (thresholdBin img t1) := by
  rw [countNonZero_thresholdBin, countNonZero_thresholdBin]
  apply List.sum_le_sum
  intro row _
  apply List.countP_mono_left
  intro d _ hd
  simp only [decide_eq_true_eq] at hd ⊢
  omega

theorem diffCompare_snd_anti (ref live : Image) {t1 t2 : ℕ} (rt : ℚ) (h12 : t1 ≤ t2) :
    (ImageProcessor.diffCompare ref live t2 rt).2 ≤
      (ImageProcessor.diffCompare ref live t1 rt).2 := by
  unfold ImageProcessor.diffCompare
  simp only [size_thresholdBin]
  by_cases h0 : size (absdiff ref live) = 0
  · simp [h0]
  · simp only [if_neg h0]
    rw [Rat.mkRat_eq_divInt, Rat.divInt_eq_div, Rat.mkRat_eq_divInt, Rat.divInt_eq_div]
    have hT : (0 : ℚ) < ((size (absdiff ref live) : ℤ) : ℚ) := by
      exact_mod_cast Nat.pos_of_ne_zero h0
    rw [div_le_div_iff_of_pos_right hT]
    exact_mod_cast countNonZero_thresholdBin_anti (absdiff ref live) h12

theorem diffCompare_fst_mono (ref live : Image) (t : ℕ) {r1 r2 : ℚ} (h12 : r1 ≤ r2) :
    (ImageProcessor.diffCompare ref live t r1).1 = false →
    (ImageProcessor.diffCompare ref live t r2).1 = false := by
  unfold ImageProcessor.diffCompare
  by_cases h0 : size (thresholdBin (absdiff ref live) t) = 0
  · simp [h0]
  · simp only [if_neg h0]
    intro h1
    simp only [decide_eq_false_iff_not, not_lt] at h1 ⊢
    exact le_trans h1 h12

/-- C8: for fixed images, raising the pixel threshold never raises the
severity, and raising the ratio threshold never turns `changed = false`
into `changed = true`. -/
theorem C8_monotonicity (ref live : Image) (t t1 t2 : ℕ) (rt r1 r2 : ℚ) :
    (t1 ≤ t2 →
      (ImageProcessor.pixel_diff_change ref live t2 rt).2 ≤
        (ImageProcessor.pixel_diff_change ref live t1 rt).2) ∧
    (r1 ≤ r2 → (ImageProcessor.pixel_diff_change ref live t r1).1 = false →
      (ImageProcessor.pixel_diff_change ref live t r2).1 = false) := by
  constructor
  · intro h12
    unfold ImageProcessor.pixel_diff_change
    by_cases hs : shape ref ≠ shape live
    · simp only [if_pos hs]
      by_cases hz : size (slice2d ref 0 0 (min (height ref) (height live))
            (min (width ref) (width live))) = 0 ∨
          size (slice2d live 0 0 (min (height ref) (height live))
            (min (width ref) (width live))) = 0
      · simp [hz]
      · simp only [if_neg hz]
        exact diffCompare_snd_anti _ _ rt h12
    · simp only [if_neg hs]
      exact diffCompare_snd_anti _ _ rt h12
  · intro h12
    unfold ImageProcessor.pixel_diff_change
    by_cases hs : shape ref ≠ shape live
    · simp only [if_pos hs]
      by_cases hz : size (slice2d ref 0 0 (min (height ref) (height live))
            (min (width ref) (width live))) = 0 ∨
          size (slice2d live 0 0 (min (height ref) (height live))
            (min (width ref) (width live))) = 0
      · simp [hz]
      · simp only [if_neg hz]
        exact diffCompare_fst_mono _ _ t h12
    · simp only [if_neg hs]
      exact diffCompare_fst_mono _ _ t h12

/-- Witness for C8 at a concrete pair: thresholds 25 ≤ 120 and
ratios 1/50 ≤ 3/4. -/
theorem C8_witness :
    ((25 : ℕ) ≤ 120 →
      (ImageProcessor.pixel_diff_change [[0, 0]] [[0, 100]] 120 (mkRat 1 50)).2 ≤
        (ImageProcessor.pixel_diff_change [[0, 0]] [[0, 100]] 25 (mkRat 1 50)).2) ∧
    (mkRat 1 50 ≤ mkRat 3 4 →
      (ImageProcessor.pixel_diff_change [[0, 0]] [[0, 100]] 25 (mkRat 1 50)).1 = false →
      (ImageProcessor.pixel_diff_change [[0, 0]] [[0, 100]] 25 (mkRat 3 4)).1 = false) :=
  C8_monotonicity [[0, 0]] [[0, 100]] 25 25 120 (mkRat 1 50) (mkRat 1 50) (mkRat 3 4)

theorem height_slice2d (img : Image) (y x h w : ℕ) :
    height (slice2d img y x h w) = min h (height img - y) := by
  simp [slice2d, height]

theorem size_slice2d_zero (img : Image) {mh mw : ℕ} (h : mh = 0 ∨ mw = 0) :
    size (slice2d img 0 0 mh mw) = 0 := by
  rcases h with h | h <;> subst h
  · simp [slice2d, size]
  · unfold slice2d size
    rw [List.map_map]
    apply List.sum_eq_zero
    intro n hn
    obtain ⟨r, _, rfl⟩ := List.mem_map.mp hn
    simp

theorem shape_slice2d_crop (img : Image) (mh mw : ℕ) (hrect : Rect img)
    (hmh : mh ≤ height img) (hmw : mw ≤ width img) (hpos : 0 < mh) :
    shape (slice2d img 0 0 mh mw) = (mh, mw) := by
  cases img with
  | nil => simp [height] at hmh; omega
  | cons r rs =>
    cases mh with
    | zero => omega
    | succ n =>
      have hr : r.length = width (r :: rs) := hrect r (by simp)
      unfold shape
      simp only [Prod.mk.injEq]
      constructor
      · rw [height_slice2d]
        simp [height] at hmh ⊢
        omega
      · simp only [slice2d, List.drop_zero, List.take_succ_cons, List.map_cons]
        simp [width] at hmw ⊢
        omega

/-- C3: when the two images' dimensions differ, the detector computes on
the top-left crops to the common minimum height/width (the crops share
that shape when it is non-degenerate), and a zero common dimension yields
`(false, 0.0)`; the function is total, so no path raises. -/
theorem C3_dimension_mismatch (ref live : Image) (t : ℕ) (rt : ℚ)
    (href : Rect ref) (hlive : Rect live) (hne : shape ref ≠ shape live) :
    (ImageProcessor.pixel_diff_change ref live t rt =
      if size (slice2d ref 0 0 (min (height ref) (height live))
            (min (width ref) (width live))) = 0 ∨
          size (slice2d live 0 0 (min (height ref) (height live))
            (min (width ref) (width live))) = 0 then (false, 0)
      else ImageProcessor.diffCompare
        (slice2d ref 0 0 (min (height ref) (height live)) (min (width ref) (width live)))
        (slice2d live 0 0 (min (height ref) (height live)) (min (width ref) (width live)))
        t rt) ∧
    (0 < min (height ref) (height live) → 0 < min (width ref) (width live) →
      shape (slice2d ref 0 0 (min (height ref) (height live))
          (min (width ref) (width live))) =
        (min (height ref) (height live), min (width ref) (width live)) ∧
      shape (slice2d live 0 0 (min (height ref) (height live))
          (min (width ref) (width live))) =
        (min (height ref) (height live), min (width ref) (width live))) ∧
    (min (height ref) (height live) = 0 ∨ min (width ref) (width live) = 0 →
      ImageProcessor.pixel_diff_change ref live t rt = (false, 0)) := by
  refine ⟨?_, ?_, ?_⟩
  · unfold ImageProcessor.pixel_diff_change
    rw [if_pos hne]
  · intro hmh hmw
    constructor
    · exact shape_slice2d_crop ref _ _ href (min_le_left _ _) (min_le_left _ _) hmh
    · exact shape_slice2d_crop live _ _ hlive (min_le_right _ _) (min_le_right _ _) hmh
  · intro hz
    have h0 : size (slice2d ref 0 0 (min (height ref) (height live))
        (min (width ref) (width live))) = 0 := size_slice2d_zero ref hz
    unfold ImageProcessor.pixel_diff_change
    rw [if_pos hne, if_pos (Or.inl h0)]

/-- Witness for C3 at a 2×1 reference against a 1×2 live image: the common
crop is 1×1 and the detector compares the crops. -/
theorem C3_witness :
    (ImageProcessor.pixel_diff_change [[0], [0]] [[0, 0]] 25 (mkRat 1 50) =
      if size (slice2d [[0], [0]] 0 0 (min (height [[0], [0]]) (height [[0, 0]]))
            (min (width [[0], [0]]) (width [[0, 0]]))) = 0 ∨
          size (slice2d [[0, 0]] 0 0 (min (height [[0], [0]]) (height [[0, 0]]))
            (min (width [[0], [0]]) (width [[0, 0]]))) = 0 then (false, 0)
      else ImageProcessor.diffCompare
        (slice2d [[0], [0]] 0 0 (min (height [[0], [0]]) (height [[0, 0]]))
          (min (width [[0], [0]]) (width [[0, 0]])))
        (slice2d [[0, 0]] 0 0 (min (height [[0], [0]]) (height [[0, 0]]))
          (min (width [[0], [0]]) (width [[0, 0]])))
        25 (mkRat 1 50)) ∧
    (0 < min (height [[0], [0]]) (height [[0, 0]]) →
      0 < min (width [[0], [0]]) (width [[0, 0]]) →
      shape (slice2d [[0], [0]] 0 0 (min (height [[0], [0]]) (height [[0, 0]]))
          (min (width [[0], [0]]) (width [[0, 0]]))) =
        (min (height [[0], [0]]) (height [[0, 0]]), min (width [[0], [0]]) (width [[0, 0]])) ∧
      shape (slice2d [[0, 0]] 0 0 (min (height [[0], [0]]) (height [[0, 0]]))
          (min (width [[0], [0]]) (width [[0, 0]]))) =
        (min (height [[0], [0]]) (height [[0, 0]]), min (width [[0], [0]]) (width [[0, 0]]))) ∧
    (min (height [[0], [0]]) (height [[0, 0]]) = 0 ∨
        min (width [[0], [0]]) (width [[0, 0]]) = 0 →
      ImageProcessor.pixel_diff_change [[0], [0]] [[0, 0]] 25 (mkRat 1 50) = (false, 0)) :=
  C3_dimension_mismatch [[0], [0]] [[0, 0]] 25 (mkRat 1 50)
    (by decide) (by decide) (by decide)

/-- C10: on equal-shape non-empty inputs the unused duplicate
`VisionProcessor.pixel_diff_change(ref, live, 25)` returns exactly what the
app's `ImageProcessor.pixel_diff_change(ref, live, 25, 0.02)` returns. -/
theorem C10_duplicate_detector_agrees (ref live : Image)
    (hshape : shape ref = shape live) (hh : 0 < height ref) (hw : 0 < width ref) :
    VisionProcessor.pixel_diff_change ref live 25 =
      ImageProcessor.pixel_diff_change ref live 25 (mkRat 1 50) := by
  unfold VisionProcessor.pixel_diff_change ImageProcessor.pixel_diff_change
  rw [if_neg (not_not_intro hshape)]
  rfl

/-- Witness for C10 at a concrete equal-shape 1×2 pair. -/
theorem C10_witness :
    VisionProcessor.pixel_diff_change [[5, 5]] [[5, 40]] 25 =
      ImageProcessor.pixel_diff_change [[5, 5]] [[5, 40]] 25 (mkRat 1 50) :=
  C10_duplicate_detector_agrees [[5, 5]] [[5, 40]] (by decide) (by decide) (by decide)

/-! ### Aligner lemmas -/

theorem pickMax_mem (f : ℕ × ℕ → ℚ) :
    ∀ (l : List (ℕ × ℕ)) (best : ℕ × ℕ), pickMax f l best = best ∨ pickMax f l best ∈ l := by
  intro l
  induction l with
  | nil => intro best; left; rfl
  | cons p rest ih =>
    intro best
    unfold pickMax
    by_cases h : f best < f p
    · rw [if_pos h]
      rcases ih p with h1 | h1
      · right; rw [h1]; exact List.mem_cons_self _ _
      · right; exact List.mem_cons_of_mem _ h1
    · rw [if_neg h]
      rcases ih best with h1 | h1
      · left; exact h1
      · right; exact List.mem_cons_of_mem _ h1

theorem scanOrder_bounds {rows cols : ℕ} (hc : 0 < cols) :
    ∀ p ∈ scanOrder rows cols, p.1 < rows ∧ p.2 < cols := by
  intro p hp
  obtain ⟨k, hk, rfl⟩ := List.mem_map.mp hp
  rw [List.mem_range] at hk
  refine ⟨?_, Nat.mod_lt _ hc⟩
  rw [Nat.div_lt_iff_lt_mul hc]
  exact hk

theorem minMaxLocMax_bounds (res : List (List ℚ)) (hr : 0 < res.length)
    (hc : 0 < (res.headD []).length) :
    (minMaxLocMax res).2 < res.length ∧ (minMaxLocMax res).1 < (res.headD []).length := by
  rcases pickMax_mem (fun p => qpix res p.1 p.2)
      (scanOrder res.length (res.headD []).length) (0, 0) with h | h
  · simp only [minMaxLocMax, h]
    exact ⟨hr, hc⟩
  · have hb := scanOrder_bounds hc _ h
    simp only [minMaxLocMax]
    exact ⟨hb.1, hb.2⟩

theorem rows_slice2d {img : Image} {W : ℕ} (hrect : ∀ r ∈ img, r.length = W)
    {x w : ℕ} (hxw : x + w ≤ W) (y h : ℕ) :
    ∀ r ∈ slice2d img y x h w, r.length = w := by
  intro r hr
  obtain ⟨s, hs, rfl⟩ := List.mem_map.mp hr
  have hsub : s ∈ img := List.drop_subset _ _ (List.take_subset _ _ hs)
  rw [List.length_take, List.length_drop, hrect s hsub]
  omega

theorem width_eq_of_rows {img : Image} {w : ℕ} (h : ∀ r ∈ img, r.length = w)
    (hne : img ≠ []) : width img = w := by
  cases img with
  | nil => exact absurd rfl hne
  | cons r rs => exact h r (by simp)

theorem slice2d_full (img : Image) (hrect : Rect img) :
    slice2d img 0 0 (height img) (width img) = img := by
  unfold slice2d
  rw [List.drop_zero]
  have h1 : List.take (height img) img = img := List.take_length img
  rw [h1]
  have h2 : ∀ r ∈ img, (r.drop 0).take (width img) = r := by
    intro r hr
    rw [List.drop_zero]
    exact List.take_of_length_le (le_of_eq (hrect r hr))
  calc img.map (fun row => (row.drop 0).take (width img))
      = img.map id := List.map_congr_left (fun r hr => h2 r hr)
    _ = img := List.map_id img

theorem minMaxLocMax_singleton (s : ℚ) : minMaxLocMax [[s]] = (0, 0) := by
  unfold minMaxLocMax
  rw [show ([[s]] : List (List ℚ)).length = 1 from rfl,
    show (([[s]] : List (List ℚ)).headD []).length = 1 from rfl,
    show scanOrder 1 1 = [(0, 0)] from by decide]
  have h2 : pickMax (fun p => qpix [[s]] p.1 p.2) [(0, 0)] (0, 0) = (0, 0) := by
    unfold pickMax
    rw [if_neg (lt_irrefl _)]
    rfl
  rw [h2]

/-- C2, amended: when the template is non-empty and the search area is at
least the template's size in both dimensions (the §4.2 contract), `align`
does not raise and the matched crop has exactly the template's dimensions
(so the top-left fallback branch never fires on these inputs).  The claim
as stated — never raising for *every* template/search-area pair — is
refuted by `C2_counterexample`: a search area smaller than the template
makes the `cv2.matchTemplate` call itself raise, before any fallback. -/
theorem C2_align_contract_no_raise (template image : Image)
    (ht : Rect template) (hi : Rect image)
    (hh : 0 < height template) (hw : 0 < width template)
    (hH : height template ≤ height image) (hW : width template ≤ width image) :
    ∃ r, ImageProcessor.align_images template image = .ok r ∧ shape r = shape template := by
  have hcond : ¬(height template = 0 ∨ width template = 0 ∨
      height image < height template ∨ width image < width template) := by omega
  have hmt : matchTemplate image template =
      .ok ((List.range (height image - height template + 1)).map (fun dy =>
        (List.range (width image - width template + 1)).map (fun dx =>
          nccScore image template dy dx))) := by
    unfold matchTemplate
    rw [if_neg hcond]
  set res := (List.range (height image - height template + 1)).map (fun dy =>
      (List.range (width image - width template + 1)).map (fun dx =>
        nccScore image template dy dx)) with hres
  have hrows : res.length = height image - height template + 1 := by
    rw [hres, List.length_map, List.length_range]
  have hcols : (res.headD []).length = width image - width template + 1 := by
    rw [hres, List.range_succ_eq_map (height image - height template), List.map_cons,
      List.headD_cons, List.length_map, List.length_range]
  have hb := minMaxLocMax_bounds res (by omega) (by omega)
  rw [hrows] at hb
  rw [hcols] at hb
  have hy : (minMaxLocMax res).2 + height template ≤ height image := by
    have h1 : (minMaxLocMax res).2 ≤ height image - height template :=
      Nat.lt_succ_iff.mp hb.1
    have h2 := Nat.add_le_add_right h1 (height template)
    rwa [Nat.sub_add_cancel hH] at h2
  have hx : (minMaxLocMax res).1 + width template ≤ width image := by
    have h1 : (minMaxLocMax res).1 ≤ width image - width template :=
      Nat.lt_succ_iff.mp hb.2
    have h2 := Nat.add_le_add_right h1 (width template)
    rwa [Nat.sub_add_cancel hW] at h2
  set aligned := slice2d image (minMaxLocMax res).2 (minMaxLocMax res).1
      (height template) (width template) with haligned
  have hhal : height aligned = height template := by
    rw [haligned, height_slice2d]
    unfold height at hy ⊢
    omega
  have hralg : ∀ r ∈ aligned, r.length = width template := by
    rw [haligned]
    exact rows_slice2d hi hx _ _
  have hwal : width aligned = width template := by
    apply width_eq_of_rows hralg
    intro hnil
    rw [hnil] at hhal
    exact Nat.pos_iff_ne_zero.mp hh hhal.symm
  have hshape : shape aligned = shape template := by
    unfold shape
    rw [hhal, hwal]
  refine ⟨aligned, ?_, hshape⟩
  unfold ImageProcessor.align_images
  rw [hmt]
  simp only [← hres, ← haligned]
  rw [if_neg (not_not_intro hshape)]

/-- C2, counterexample to the claim as stated: a 2×1 template with a 1×2
search area (smaller in height) makes `cv2.matchTemplate` raise — `align`
does not return the top-left crop, it propagates the error. -/
theorem C2_counterexample :
    ImageProcessor.align_images [[7], [7]] [[7, 7]] =
      .error "cv2.error: template must be non-empty and not greater than the image" := by
  decide

/-- Witness for the amended C2 on a concrete 1×1 template inside a 2×2
search area. -/
theorem C2_witness :
    ∃ r, ImageProcessor.align_images [[5]] [[5, 6], [7, 8]] = .ok r ∧
      shape r = shape [[5]] :=
  C2_align_contract_no_raise [[5]] [[5, 6], [7, 8]]
    (by decide) (by decide) (by decide) (by decide) (by decide) (by decide)

/-- C7, amended: for every *non-empty* intensity image `t`,
`align(t, t)` returns exactly `t` (the correlation grid is 1×1, so the
only offset is (0,0) and the crop is the whole image).  The claim over
*every* image fails on the empty image, where the `cv2.matchTemplate`
call raises: `C7_counterexample`. -/
theorem C7_align_identity (t : Image) (hrect : Rect t)
    (hh : 0 < height t) (hw : 0 < width t) :
    ImageProcessor.align_images t t = .ok t := by
  have hcond : ¬(height t = 0 ∨ width t = 0 ∨
      height t < height t ∨ width t < width t) := by omega
  have hmt : matchTemplate t t = .ok [[nccScore t t 0 0]] := by
    unfold matchTemplate
    rw [if_neg hcond]
    rw [Nat.sub_self, Nat.sub_self]
    rw [show List.range 1 = [0] from rfl]
    simp
  unfold ImageProcessor.align_images
  rw [hmt]
  simp only [minMaxLocMax_singleton]
  have hfull : slice2d t 0 0 (height t) (width t) = t := slice2d_full t hrect
  simp only [hfull]
  rw [if_neg (not_not_intro rfl)]

/-- C7, counterexample to the claim as stated: on the empty image the
template-matching call raises instead of returning the (empty) region. -/
theorem C7_counterexample :
    ImageProcessor.align_images ([] : Image) ([] : Image) ≠ .ok ([] : Image) := by
  decide

/-- Witness for the amended C7 on a concrete non-empty image. -/
theorem C7_witness : ImageProcessor.align_images [[3]] [[3]] = .ok [[3]] :=
  C7_align_identity [[3]] (by decide) (by decide) (by decide)

/-! ### Normalizer lemmas -/

/-- Boolean check that every intensity of an image is a valid uint8 value. -/
def allLe255 (img : Image) : Bool :=
  img.all (fun row => row.all (fun v => decide (v ≤ 255)))

theorem clahePixel_le (src : Image) (h w i j : ℕ) : clahePixel src h w i j ≤ 255 := by
  unfold clahePixel
  exact min_le_right _ _

theorem height_claheApply (src : Image) : height (claheApply src) = height src := by
  unfold claheApply height
  rw [List.length_map, List.length_range]

theorem width_claheApply (src : Image) : width (claheApply src) = width src := by
  unfold claheApply
  cases hs : height src with
  | zero =>
    have : src = [] := List.length_eq_zero.mp hs
    subst this
    rfl
  | succ n =>
    rw [List.range_succ_eq_map n, List.map_cons]
    unfold width
    rw [List.headD_cons, List.length_map, List.length_range]

theorem claheApply_le (src : Image) : allLe255 (claheApply src) = true := by
  unfold allLe255
  rw [List.all_eq_true]
  intro row hrow
  rw [List.all_eq_true]
  intro v hv
  unfold claheApply at hrow
  obtain ⟨i, _, rfl⟩ := List.mem_map.mp hrow
  obtain ⟨j, _, rfl⟩ := List.mem_map.mp hv
  exact decide_eq_true (clahePixel_le ..)

theorem height_cvtColor (d : List (List (ℕ × ℕ × ℕ))) :
    height (cvtColorBGR2Gray d) = d.length := by
  unfold cvtColorBGR2Gray height
  rw [List.length_map]

theorem width_cvtColor (d : List (List (ℕ × ℕ × ℕ))) :
    width (cvtColorBGR2Gray d) = (d.headD []).length := by
  cases d with
  | nil => rfl
  | cons r rs =>
    unfold cvtColorBGR2Gray width
    rw [List.map_cons, List.headD_cons, List.headD_cons, List.length_map]

theorem height_preprocess (f : Frame) :
    height (ImageProcessor.preprocess_with_clahe f) = frameHeight f := by
  cases f with
  | color d =>
    show height (claheApply (cvtColorBGR2Gray d)) = d.length
    rw [height_claheApply, height_cvtColor]
  | gray g =>
    show height (claheApply g) = height g
    exact height_claheApply g

theorem width_preprocess (f : Frame) :
    width (ImageProcessor.preprocess_with_clahe f) = frameWidth f := by
  cases f with
  | color d =>
    show width (claheApply (cvtColorBGR2Gray d)) = (d.headD []).length
    rw [width_claheApply, width_cvtColor]
  | gray g =>
    show width (claheApply g) = width g
    exact width_claheApply g

theorem allLe255_preprocess (f : Frame) :
    allLe255 (ImageProcessor.preprocess_with_clahe f) = true := by
  cases f with
  | color d => exact claheApply_le _
  | gray g => exact claheApply_le _

/-- C9: the normalizer returns a single-channel image (by type) of the
input frame's width and height, for color and already-grayscale frames
alike; applying it twice still preserves the dimensions, and every output
intensity stays within the valid `[0, 255]` range both times. -/
theorem C9_normalizer_contract (f : Frame) :
    height (ImageProcessor.preprocess_with_clahe f) = frameHeight f ∧
    width (ImageProcessor.preprocess_with_clahe f) = frameWidth f ∧
    allLe255 (ImageProcessor.preprocess_with_clahe f) = true ∧
    height (ImageProcessor.preprocess_with_clahe
      (Frame.gray (ImageProcessor.preprocess_with_clahe f))) = frameHeight f ∧
    width (ImageProcessor.preprocess_with_clahe
      (Frame.gray (ImageProcessor.preprocess_with_clahe f))) = frameWidth f ∧
    allLe255 (ImageProcessor.preprocess_with_clahe
      (Frame.gray (ImageProcessor.preprocess_with_clahe f))) = true := by
  refine ⟨height_preprocess f, width_preprocess f, allLe255_preprocess f, ?_, ?_,
    allLe255_preprocess _⟩
  · rw [height_preprocess]
    show height (ImageProcessor.preprocess_with_clahe f) = frameHeight f
    exact height_preprocess f
  · rw [width_preprocess]
    show width (ImageProcessor.preprocess_with_clahe f) = frameWidth f
    exact width_preprocess f

/-! ### Orchestration lemmas -/

theorem diffCompare_false_le (ref live : Image) (t : ℕ) {rt q : ℚ} (hrt : 0 ≤ rt)
    (h : ImageProcessor.diffCompare ref live t rt = (false, q)) : q ≤ rt := by
  simp only [ImageProcessor.diffCompare] at h
  by_cases h0 : size (thresholdBin (absdiff ref live) t) = 0
  · rw [if_pos h0] at h
    obtain ⟨-, rfl⟩ := Prod.mk.injEq .. ▸ h
    exact hrt
  · rw [if_neg h0] at h
    obtain ⟨h1, rfl⟩ := Prod.mk.inj h.symm
    exact not_lt.mp (of_decide_eq_false h1.symm)

theorem diffCompare_true_lt (ref live : Image) (t : ℕ) {rt q : ℚ}
    (h : ImageProcessor.diffCompare ref live t rt = (true, q)) : rt < q := by
  simp only [ImageProcessor.diffCompare] at h
  by_cases h0 : size (thresholdBin (absdiff ref live) t) = 0
  · rw [if_pos h0] at h
    exact absurd (congrArg Prod.fst h) (by simp)
  · rw [if_neg h0] at h
    obtain ⟨h1, rfl⟩ := Prod.mk.inj h.symm
    exact of_decide_eq_true h1.symm

theorem pixel_diff_change_false_le (ref live : Image) (t : ℕ) {rt q : ℚ} (hrt : 0 ≤ rt)
    (h : ImageProcessor.pixel_diff_change ref live t rt = (false, q)) : q ≤ rt := by
  unfold ImageProcessor.pixel_diff_change at h
  by_cases hs : shape ref ≠ shape live
  · rw [if_pos hs] at h
    simp only [] at h
    by_cases hz : size (slice2d ref 0 0 (min (height ref) (height live))
          (min (width ref) (width live))) = 0 ∨
        size (slice2d live 0 0 (min (height ref) (height live))
          (min (width ref) (width live))) = 0
    · rw [if_pos hz] at h
      obtain ⟨-, rfl⟩ := Prod.mk.injEq .. ▸ h
      exact hrt
    · rw [if_neg hz] at h
      exact diffCompare_false_le _ _ _ hrt h
  · rw [if_neg hs] at h
    exact diffCompare_false_le _ _ _ hrt h

theorem pixel_diff_change_true_lt (ref live : Image) (t : ℕ) {rt q : ℚ}
    (h : ImageProcessor.pixel_diff_change ref live t rt = (true, q)) : rt < q := by
  unfold ImageProcessor.pixel_diff_change at h
  by_cases hs : shape ref ≠ shape live
  · rw [if_pos hs] at h
    simp only [] at h
    by_cases hz : size (slice2d ref 0 0 (min (height ref) (height live))
          (min (width ref) (width live))) = 0 ∨
        size (slice2d live 0 0 (min (height ref) (height live))
          (min (width ref) (width live))) = 0
    · rw [if_pos hz] at h
      exact absurd (congrArg Prod.fst h) (by simp)
    · rw [if_neg hz] at h
      exact diffCompare_true_lt _ _ _ h
  · rw [if_neg hs] at h
    exact diffCompare_true_lt _ _ _ h

theorem refStep_false_le {live : Image} {f : Frame} {q : ℚ}
    (h : VisionTestApp.refStep live f = .ok (false, q)) : q ≤ mkRat 1 50 := by
  unfold VisionTestApp.refStep at h
  cases halign : ImageProcessor.align_images (ImageProcessor.preprocess_with_clahe f) live with
  | error e => rw [halign] at h; exact absurd h (by simp)
  | ok a =>
    rw [halign] at h
    simp only [Except.ok.injEq] at h
    exact pixel_diff_change_false_le _ _ _ (by decide) h

theorem refStep_true_lt {live : Image} {f : Frame} {q : ℚ}
    (h : VisionTestApp.refStep live f = .ok (true, q)) : mkRat 1 50 < q := by
  unfold VisionTestApp.refStep at h
  cases halign : ImageProcessor.align_images (ImageProcessor.preprocess_with_clahe f) live with
  | error e => rw [halign] at h; exact absurd h (by simp)
  | ok a =>
    rw [halign] at h
    simp only [Except.ok.injEq] at h
    exact pixel_diff_change_true_lt _ _ _ h

theorem process_refs_trigger (live : Image) (r : Frame) (post : List (Option Frame)) (q0 : ℚ)
    (hr : VisionTestApp.refStep live r = .ok (true, q0)) :
    ∀ (pre : List (Option Frame)) (m : ℚ), m ≤ q0 →
      (∀ f ∈ pre.filterMap id, ∃ q, VisionTestApp.refStep live f = .ok (false, q)) →
      VisionTestApp.process_refs live (pre ++ some r :: post) m = .ok (true, q0) := by
  intro pre
  induction pre with
  | nil =>
    intro m hm _
    rw [List.nil_append]
    unfold VisionTestApp.process_refs
    rw [hr]
    show Except.ok (true, max m q0) = Except.ok (true, q0)
    rw [max_eq_right hm]
  | cons o rest ih =>
    intro m hm hpre
    cases o with
    | none =>
      rw [List.cons_append]
      show VisionTestApp.process_refs live (rest ++ some r :: post) m = .ok (true, q0)
      exact ih m hm (fun f hf => hpre f hf)
    | some g =>
      obtain ⟨q, hq⟩ := hpre g (by
        apply List.mem_filterMap.mpr
        exact ⟨some g, by simp, rfl⟩)
      have hq50 : q ≤ mkRat 1 50 := refStep_false_le hq
      have hq0 : mkRat 1 50 < q0 := refStep_true_lt hr
      rw [List.cons_append]
      unfold VisionTestApp.process_refs
      rw [hq]
      show VisionTestApp.process_refs live (rest ++ some r :: post) (max m q) = .ok (true, q0)
      apply ih (max m q) (max_le hm (le_of_lt (lt_of_le_of_lt hq50 hq0)))
      intro f hf
      apply hpre f
      obtain ⟨o, ho, heq⟩ := List.mem_filterMap.mp hf
      exact List.mem_filterMap.mpr ⟨o, by simp [ho], heq⟩

/-- C1: in the testing loop, the first loaded reference whose detector
result has `changed = true` terminates the loop immediately with
`changed = true`; the reported severity is that reference's own severity
(every earlier reference reported `changed = false`, hence a severity at
most the 1/50 ratio threshold, which the trigger severity strictly
exceeds, so the running maximum equals the trigger severity); and the
references after the trigger are never evaluated — the result does not
depend on them at all. -/
theorem C1_short_circuit (live : Image) (pre post post' : List (Option Frame))
    (r : Frame) (q0 : ℚ)
    (hpre : ∀ f ∈ pre.filterMap id, ∃ q, VisionTestApp.refStep live f = .ok (false, q))
    (hr : VisionTestApp.refStep live r = .ok (true, q0)) :
    VisionTestApp.process_refs live (pre ++ some r :: post) 0 = .ok (true, q0) ∧
    VisionTestApp.process_refs live (pre ++ some r :: post) 0 =
      VisionTestApp.process_refs live (pre ++ some r :: post') 0 := by
  have h0 : (0 : ℚ) ≤ q0 :=
    le_of_lt (lt_of_le_of_lt (by decide : (0 : ℚ) ≤ mkRat 1 50) (refStep_true_lt hr))
  have h1 := process_refs_trigger live r post q0 hr pre 0 h0 hpre
  have h2 := process_refs_trigger live r post' q0 hr pre 0 h0 hpre
  exact ⟨h1, h1.trans h2.symm⟩

/-- Witness for C1: the middle reference (a 1×1 gray frame) triggers with
severity 1 against the live image `[[0]]`; the first slot failed to load
and is skipped; the third reference is never evaluated, so dropping it
leaves the result unchanged. -/
theorem C1_witness :
    VisionTestApp.process_refs [[0]]
        [none, some (Frame.gray [[5]]), some (Frame.gray [[9]])] 0 = .ok (true, 1) ∧
    VisionTestApp.process_refs [[0]]
        [none, some (Frame.gray [[5]]), some (Frame.gray [[9]])] 0 =
      VisionTestApp.process_refs [[0]] [none, some (Frame.gray [[5]])] 0 :=
  C1_short_circuit [[0]] [none] [some (Frame.gray [[9]])] [] (Frame.gray [[5]]) 1
    (by simp) (by decide)

theorem le_foldl_max (qs : List ℚ) :
    ∀ m : ℚ, m ≤ qs.foldl max m ∧ ∀ q ∈ qs, q ≤ qs.foldl max m := by
  induction qs with
  | nil => intro m; exact ⟨le_refl m, by simp⟩
  | cons q rest ih =>
    intro m
    rw [List.foldl_cons]
    constructor
    · exact le_trans (le_max_left m q) (ih (max m q)).1
    · intro x hx
      rcases List.mem_cons.mp hx with rfl | hx
      · exact le_trans (le_max_right m x) (ih (max m x)).1
      · exact (ih (max m q)).2 x hx

theorem foldl_max_mem (qs : List ℚ) : ∀ m : ℚ, qs.foldl max m = m ∨ qs.foldl max m ∈ qs := by
  induction qs with
  | nil => intro m; left; rfl
  | cons q rest ih =>
    intro m
    rw [List.foldl_cons]
    rcases ih (max m q) with h | h
    · rcases max_choice m q with hm | hm
      · left; rw [h, hm]
      · right; rw [h, hm]; exact List.mem_cons_self _ _
    · right; exact List.mem_cons_of_mem _ h

theorem process_refs_no_trigger (live : Image) :
    ∀ (refs : List (Option Frame)) (qs : List ℚ) (m : ℚ),
      List.Forall₂ (fun f q => VisionTestApp.refStep live f = .ok (false, q))
        (refs.filterMap id) qs →
      VisionTestApp.process_refs live refs m = .ok (false, qs.foldl max m) := by
  intro refs
  induction refs with
  | nil =>
    intro qs m h
    cases h
    rfl
  | cons o rest ih =>
    intro qs m h
    cases o with
    | none =>
      unfold VisionTestApp.process_refs
      exact ih qs m h
    | some g =>
      have h' : List.Forall₂ (fun f q => VisionTestApp.refStep live f = .ok (false, q))
          (g :: rest.filterMap id) qs := h
      cases h' with
      | cons hq htail =>
        unfold VisionTestApp.process_refs
        rw [hq]
        rw [List.foldl_cons]
        exact ih _ (max m _) htail

/-- C5: when no loaded reference triggers a change (each comparison
returns `changed = false` with some severity), the loop reports
`changed = false` with severity `foldl max 0` of the observed severities —
the maximum severity across all references evaluated (second and third
conjuncts pin it as an upper bound attained at 0 or one of the
severities).  Reference slots whose image failed to load (`none`) are
skipped: they appear in neither the hypothesis list nor the result. -/
theorem C5_no_trigger_max_severity (live : Image) (refs : List (Option Frame)) (qs : List ℚ)
    (h : List.Forall₂ (fun f q => VisionTestApp.refStep live f = .ok (false, q))
      (refs.filterMap id) qs) :
    VisionTestApp.process_refs live refs 0 = .ok (false, qs.foldl max 0) ∧
    (∀ q ∈ qs, q ≤ qs.foldl max 0) ∧
    (qs.foldl max 0 = 0 ∨ qs.foldl max 0 ∈ qs) :=
  ⟨process_refs_no_trigger live refs qs 0 h, (le_foldl_max qs 0).2, foldl_max_mem qs 0⟩

/-- Witness for C5: one loaded reference comparing clean (severity 0)
against the live image, one unloadable slot that is skipped. -/
theorem C5_witness :
    VisionTestApp.process_refs [[255]] [some (Frame.gray [[0]]), none] 0 =
      .ok (false, [(0 : ℚ)].foldl max 0) ∧
    (∀ q ∈ [(0 : ℚ)], q ≤ [(0 : ℚ)].foldl max 0) ∧
    ([(0 : ℚ)].foldl max 0 = 0 ∨ [(0 : ℚ)].foldl max 0 ∈ [(0 : ℚ)]) :=
  C5_no_trigger_max_severity [[255]] [some (Frame.gray [[0]]), none] [(0 : ℚ)]
    (List.Forall₂.cons (by decide) List.Forall₂.nil)

/-! ### Region handling (C6) -/

/-- C6 counterexample: the claim as stated fails on the code.  A click
without a drag records equal corners, so `get_roi_box` returns the
zero-area region (5, 5, 0, 0) — violating `width > 0 ∧ height > 0` — and
the app applies regions by numpy slicing, which never reports an error:
the zero-area region silently yields an empty crop, and a region
extending past the bounds of a 10×10 frame (here (8, 8, 5, 5)) is
silently clamped to a 2×2 crop instead of being reported. -/
theorem C6_counterexample :
    VisionTestApp.get_roi_box (some (5, 5)) (some (5, 5)) = some (5, 5, 0, 0) ∧
    slice2d (List.replicate 10 (List.replicate 10 0)) 5 5 0 0 = [] ∧
    height (slice2d (List.replicate 10 (List.replicate 10 0)) 8 8 5 5) = 2 := by
  decide

/-- C6, amended: regions produced by `get_roi_box` are
`(min x, min y, |dx|, |dy|)` — nonnegative but possibly zero-area and
unchecked against the frame bounds — and applying a region to a frame
never reports an error: slicing silently clamps, producing a crop of
height `min h (H − y)` whose rows have width `min w (W − x)`. -/
theorem C6_region_clamping (img : Image) (W y x h w : ℕ)
    (hrect : ∀ r ∈ img, r.length = W) :
    height (slice2d img y x h w) = min h (height img - y) ∧
    (∀ r ∈ slice2d img y x h w, r.length = min w (W - x)) ∧
    (∀ a b : ℕ × ℕ, VisionTestApp.get_roi_box (some a) (some b) =
      some (min a.1 b.1, min a.2 b.2, max a.1 b.1 - min a.1 b.1,
        max a.2 b.2 - min a.2 b.2)) := by
  refine ⟨height_slice2d img y x h w, ?_, ?_⟩
  · intro r hr
    obtain ⟨s, hs, rfl⟩ := List.mem_map.mp hr
    have hsub : s ∈ img := List.drop_subset _ _ (List.take_subset _ _ hs)
    rw [List.length_take, List.length_drop, hrect s hsub]
  · intro a b
    cases a
    cases b
    rfl

/-- Witness for the amended C6 on a 3×4 frame with an out-of-bounds 5×5
region at (2, 1): the crop silently clamps to 2×2. -/
theorem C6_witness :
    height (slice2d (List.replicate 3 (List.replicate 4 7)) 1 2 5 5) =
      min 5 (height (List.replicate 3 (List.replicate 4 7)) - 1) ∧
    (∀ r ∈ slice2d (List.replicate 3 (List.replicate 4 7)) 1 2 5 5,
      r.length = min 5 (4 - 2)) ∧
    (∀ a b : ℕ × ℕ, VisionTestApp.get_roi_box (some a) (some b) =
      some (min a.1 b.1, min a.2 b.2, max a.1 b.1 - min a.1 b.1,
        max a.2 b.2 - min a.2 b.2)) :=
  C6_region_clamping (List.replicate 3 (List.replicate 4 7)) 4 1 2 5 5 (by decide)

end UEye
